import Mathlib

/-!
Verification development for the BauMax course loader
(`src/assets/js/loader.js`).  The JavaScript class `CourseLoader` is
shallowly embedded below: pure string manipulation becomes functions on
`List Char` / `String`, the `localStorage` backing store becomes an
association list of well-formed cache envelopes, and the network (`fetch`)
becomes an explicit oracle `String → FetchOutcome`.  Thrown exceptions are
modelled with `Except`; a `try`/`catch` boundary is the `match` on the
`Except` value.
-/

namespace BauMax

/-! ## Characters and trimming

`String.prototype.trim` removes ECMAScript WhiteSpace and LineTerminator
code points.  We model the code points that can occur in practice. -/

def jsWhitespace (c : Char) : Bool :=
  c == ' ' || c == '\t' || c == '\n' || c == '\r' ||
  c == '\x0b' || c == '\x0c' || c == '\u00A0'

def trimL (s : List Char) : List Char :=
  ((s.dropWhile jsWhitespace).reverse.dropWhile jsWhitespace).reverse

/-! ## The sentinel marker (`this.marker`, loader.js line 29) -/

def markerS : String := "<!-- HIER_STARTET_DER_INHALT -->"

def markerL : List Char := markerS.data

/-! ## JavaScript `String.prototype.split` with a non-empty separator

`html.split(this.marker)` cuts at each leftmost non-overlapping occurrence
of the separator.  `splitGo m s` performs the same scan on `List Char`:
when `m` matches at the current head the separator is consumed (for
non-empty `m` the recursive argument `rest.drop (m.length - 1)` is exactly
the tail past the separator), otherwise the head character is prepended to
the first chunk of the remainder. -/

def splitGo (m : List Char) (s : List Char) : List (List Char) :=
  match s with
  | [] => [[]]
  | c :: rest =>
    if m.isPrefixOf (c :: rest) then
      [] :: splitGo m (rest.drop (m.length - 1))
    else
      match splitGo m rest with
      | [] => [[c]]
      | chunk :: t => (c :: chunk) :: t
termination_by s.length
decreasing_by
  · simp only [List.length_cons, List.length_drop]
    omega
  · simp only [List.length_cons]
    omega

/-! ## `extractContent` (loader.js lines 332–338)

```js
extractContent(html) {
  const parts = html.split(this.marker);
  if (parts.length < 3) {
    return html; // Fallback: ganze Datei
  }
  return parts[1].trim();
}
``` -/

def extractContent (html : List Char) : List Char :=
  let parts := splitGo markerL html
  if parts.length < 3 then html
  else trimL (parts.getD 1 [])

def extractContentS (html : String) : String :=
  String.mk (extractContent html.data)

/-! ## Occurrence counting (specification vocabulary)

`occursIn m s` decides whether `m` occurs as a contiguous substring of
`s`; `countOcc m s` counts the number of positions at which `m` matches.
These are the vocabulary the claims about `extractContent` are phrased in
("the marker occurs exactly twice"). -/

def occursIn (m : List Char) : List Char → Bool
  | [] => m.isEmpty
  | c :: rest => m.isPrefixOf (c :: rest) || occursIn m rest

def countOcc (m : List Char) : List Char → Nat
  | [] => 0
  | c :: rest => (if m.isPrefixOf (c :: rest) then 1 else 0) + countOcc m rest

/-- `noBorderB m` checks that `m` has no non-trivial border (no proper
non-empty prefix of `m` that is also a suffix).  The concrete sentinel
marker satisfies this, which is what makes its occurrences in any string
pairwise non-overlapping. -/
def noBorderB (m : List Char) : Bool :=
  (List.range m.length).all fun k =>
    k == 0 || !(m.take k == m.drop (m.length - k))

/-! ## Elementary facts about prefixes, occurrences and borders -/

theorem isPrefixOf_eq_true_iff (m : List Char) :
    ∀ u : List Char, m.isPrefixOf u = true ↔ ∃ t, u = m ++ t := by
  induction m with
  | nil =>
    intro u
    simp [List.isPrefixOf]
  | cons a as ih =>
    intro u
    cases u with
    | nil => simp [List.isPrefixOf]
    | cons b bs =>
      simp only [List.isPrefixOf, Bool.and_eq_true, beq_iff_eq, ih bs]
      constructor
      · rintro ⟨rfl, t, rfl⟩
        exact ⟨t, rfl⟩
      · rintro ⟨t, h⟩
        injection h with h1 h2
        exact ⟨h1.symm, t, h2⟩

theorem isPrefixOf_append_left (m u v : List Char) (h : m.isPrefixOf u = true) :
    m.isPrefixOf (u ++ v) = true := by
  obtain ⟨t, rfl⟩ := (isPrefixOf_eq_true_iff m u).mp h
  exact (isPrefixOf_eq_true_iff m _).mpr ⟨t ++ v, by simp⟩

theorem occursIn_of_isPrefixOf (m u : List Char) (hm : m ≠ [])
    (h : m.isPrefixOf u = true) : occursIn m u = true := by
  cases u with
  | nil =>
    obtain ⟨t, ht⟩ := (isPrefixOf_eq_true_iff m []).mp h
    cases m with
    | nil => exact absurd rfl hm
    | cons a as => simp at ht
  | cons c rest => simp [occursIn, h]

theorem occursIn_tail (m : List Char) (c : Char) (rest : List Char)
    (h : occursIn m (c :: rest) = false) : occursIn m rest = false := by
  simp only [occursIn, Bool.or_eq_false_iff] at h
  exact h.2

theorem not_isPrefixOf_of_not_occursIn (m : List Char) (c : Char) (rest : List Char)
    (h : occursIn m (c :: rest) = false) : m.isPrefixOf (c :: rest) = false := by
  simp only [occursIn, Bool.or_eq_false_iff] at h
  exact h.1

theorem occursIn_append_right (m : List Char) :
    ∀ u v : List Char, occursIn m (u ++ v) = false → occursIn m v = false := by
  intro u
  induction u with
  | nil => intro v h; exact h
  | cons c u' ih =>
    intro v h
    exact ih v (occursIn_tail m c (u' ++ v) h)

theorem occursIn_drop (m : List Char) :
    ∀ (k : Nat) (s : List Char), occursIn m s = false → occursIn m (s.drop k) = false := by
  intro k
  induction k with
  | zero => intro s h; simpa using h
  | succ k ih =>
    intro s h
    cases s with
    | nil => simpa using h
    | cons c rest => exact ih rest (occursIn_tail m c rest h)

theorem countOcc_zero (m : List Char) (hm : m ≠ []) :
    ∀ s : List Char, countOcc m s = 0 → occursIn m s = false := by
  intro s
  induction s with
  | nil =>
    intro _
    cases m with
    | nil => exact absurd rfl hm
    | cons a as => simp [occursIn, List.isEmpty]
  | cons c rest ih =>
    intro h
    simp only [countOcc] at h
    by_cases hp : m.isPrefixOf (c :: rest) = true
    · simp [hp] at h
    · simp only [Bool.not_eq_true] at hp
      simp only [hp] at h
      simp only [occursIn, hp, Bool.false_or]
      exact ih (by omega)

/-- Reading off the no-border check at one border length. -/
theorem noBorderB_spec (m : List Char) (hb : noBorderB m = true) (k : Nat)
    (hk0 : 0 < k) (hk : k < m.length) : m.take k ≠ m.drop (m.length - k) := by
  have h := (List.all_eq_true.mp hb) k (List.mem_range.mpr hk)
  simp only [Bool.or_eq_true, beq_iff_eq, Bool.not_eq_eq_eq_not, Bool.not_true,
    beq_eq_false_iff_ne, ne_eq] at h
  rcases h with h | h
  · omega
  · exact h

theorem take_append_le (u v : List Char) (n : Nat) (h : n ≤ u.length) :
    (u ++ v).take n = u.take n := by
  rw [List.take_append_eq_append_take]
  have : n - u.length = 0 := by omega
  simp [this]

theorem drop_append_le (u v : List Char) (n : Nat) (h : n ≤ u.length) :
    (u ++ v).drop n = u.drop n ++ v := by
  rw [List.drop_append_eq_append_drop]
  have : n - u.length = 0 := by omega
  simp [this]

theorem drop_len_append (u v : List Char) : (u ++ v).drop u.length = v := by
  rw [drop_append_le u v u.length (le_refl _), List.drop_length]
  rfl

theorem take_len_append (u v : List Char) : (u ++ v).take u.length = u := by
  rw [take_append_le u v u.length (le_refl _), List.take_length]

/-- Two overlapping matches of a border-free pattern are impossible: if `m`
matches both at the start of `s` and at offset `d` with `0 < d < m.length`,
then `m` would have a non-trivial border. -/
theorem no_overlap (m : List Char) (hb : noBorderB m = true) (s : List Char) (d : Nat)
    (h1 : m.isPrefixOf s = true) (h2 : m.isPrefixOf (s.drop d) = true)
    (hd0 : 0 < d) (hd : d < m.length) : False := by
  obtain ⟨s2, rfl⟩ := (isPrefixOf_eq_true_iff m s).mp h1
  obtain ⟨t2, ht2⟩ := (isPrefixOf_eq_true_iff m _).mp h2
  rw [drop_append_le m s2 d (by omega)] at ht2
  -- take the first `m.length - d` characters of both sides of `ht2`
  have hlen : (m.drop d).length = m.length - d := by simp
  have hL : (m.drop d ++ s2).take (m.length - d) = m.drop d := by
    rw [take_append_le _ _ _ (by omega), List.take_of_length_le (by omega)]
  have hR : (m ++ t2).take (m.length - d) = m.take (m.length - d) :=
    take_append_le _ _ _ (by omega)
  have hbord : m.take (m.length - d) = m.drop d := by
    rw [← hL, ht2, hR]
  have hkd : m.length - (m.length - d) = d := by omega
  have := noBorderB_spec m hb (m.length - d) (by omega) (by omega)
  rw [hkd] at this
  exact this hbord

/-- A border-free pattern `m` cannot match at the start of `u ++ m ++ r`
when `u` is a non-empty string not containing `m`: such a match would
either put `m` inside `u` or make it overlap the explicit copy of `m`. -/
theorem no_crossing (m : List Char) (hb : noBorderB m = true) (hm : m ≠ [])
    (u r : List Char) (hu : u ≠ []) (hocc : occursIn m u = false) :
    m.isPrefixOf (u ++ (m ++ r)) = false := by
  by_contra hcon
  simp only [Bool.not_eq_false] at hcon
  by_cases hlen : u.length < m.length
  · -- the match would overlap the explicit copy of `m` at offset `u.length`
    have h2 : m.isPrefixOf ((u ++ (m ++ r)).drop u.length) = true := by
      rw [drop_len_append]
      exact (isPrefixOf_eq_true_iff m _).mpr ⟨r, rfl⟩
    have hu0 : 0 < u.length := List.length_pos.mpr hu
    exact no_overlap m hb _ u.length hcon h2 hu0 hlen
  · -- the match would put `m` entirely inside `u`
    obtain ⟨t, ht⟩ := (isPrefixOf_eq_true_iff m _).mp hcon
    have htake : u.take m.length = m := by
      have := congrArg (List.take m.length) ht
      rw [take_append_le u _ m.length (by omega), take_len_append] at this
      exact this
    have hpref : m.isPrefixOf u = true := by
      refine (isPrefixOf_eq_true_iff m u).mpr ⟨u.drop m.length, ?_⟩
      conv_lhs => rw [← List.take_append_drop m.length u]
      rw [htake]
    have := occursIn_of_isPrefixOf m u hm hpref
    rw [hocc] at this
    exact absurd this (by simp)

/-! ## Behaviour of `splitGo` -/

theorem splitGo_nil (m : List Char) : splitGo m [] = [[]] := by
  simp [splitGo]

theorem splitGo_cons_pos (m : List Char) (c : Char) (rest : List Char)
    (hp : m.isPrefixOf (c :: rest) = true) :
    splitGo m (c :: rest) = [] :: splitGo m (rest.drop (m.length - 1)) := by
  rw [splitGo]
  simp [hp]

theorem splitGo_cons_neg (m : List Char) (c : Char) (rest chunk : List Char)
    (t : List (List Char)) (hp : m.isPrefixOf (c :: rest) = false)
    (hr : splitGo m rest = chunk :: t) :
    splitGo m (c :: rest) = (c :: chunk) :: t := by
  rw [splitGo]
  simp [hp, hr]

/-- A string in which the separator never occurs is returned whole. -/
theorem splitGo_no_occurrence (m : List Char) :
    ∀ s : List Char, occursIn m s = false → splitGo m s = [s] := by
  intro s
  induction s with
  | nil => intro _; exact splitGo_nil m
  | cons c rest ih =>
    intro h
    exact splitGo_cons_neg m c rest rest []
      (not_isPrefixOf_of_not_occursIn m c rest h)
      (ih (occursIn_tail m c rest h))

/-- Splitting at an explicitly placed separator: the part before the
separator (which does not contain the separator) becomes the first chunk
and the scan continues past the separator. -/
theorem splitGo_append_marker (m : List Char) (hm : m ≠ []) (hb : noBorderB m = true) :
    ∀ pre rest : List Char, occursIn m pre = false →
      splitGo m (pre ++ (m ++ rest)) = pre :: splitGo m rest := by
  intro pre
  induction pre with
  | nil =>
    intro rest _
    cases m with
    | nil => exact absurd rfl hm
    | cons mc ms =>
      have hp : (mc :: ms).isPrefixOf (mc :: (ms ++ rest)) = true :=
        (isPrefixOf_eq_true_iff _ _).mpr ⟨rest, by simp⟩
      simp only [List.nil_append, List.cons_append]
      rw [splitGo_cons_pos _ _ _ hp]
      have hdrop : (ms ++ rest).drop ((mc :: ms).length - 1) = rest := by
        have : (mc :: ms).length - 1 = ms.length := by simp
        rw [this, drop_len_append]
      rw [hdrop]
  | cons c pre' ih =>
    intro rest hocc
    have hp : m.isPrefixOf ((c :: pre') ++ (m ++ rest)) = false :=
      no_crossing m hb hm (c :: pre') rest (by simp) hocc
    have ihr := ih rest (occursIn_tail m c pre' hocc)
    simpa using splitGo_cons_neg m c (pre' ++ (m ++ rest)) pre' (splitGo m rest)
      (by simpa using hp) ihr

/-! ## Decomposition of strings by occurrence count -/

theorem countOcc_cons_pos (m : List Char) (c : Char) (rest : List Char)
    (hp : m.isPrefixOf (c :: rest) = true) :
    countOcc m (c :: rest) = 1 + countOcc m rest := by
  simp [countOcc, hp]

theorem countOcc_cons_neg (m : List Char) (c : Char) (rest : List Char)
    (hp : m.isPrefixOf (c :: rest) = false) :
    countOcc m (c :: rest) = countOcc m rest := by
  simp [countOcc, hp]

theorem countOcc_one_decomp (m : List Char) (hm : m ≠ []) :
    ∀ s : List Char, countOcc m s = 1 →
      ∃ pre post, s = pre ++ (m ++ post) ∧
        occursIn m pre = false ∧ occursIn m post = false := by
  intro s
  induction s with
  | nil => intro h; simp [countOcc] at h
  | cons c rest ih =>
    intro h
    by_cases hp : m.isPrefixOf (c :: rest) = true
    · rw [countOcc_cons_pos m c rest hp] at h
      have hro : occursIn m rest = false := countOcc_zero m hm rest (by omega)
      obtain ⟨t, ht⟩ := (isPrefixOf_eq_true_iff m _).mp hp
      cases m with
      | nil => exact absurd rfl hm
      | cons mc ms =>
        rw [List.cons_append] at ht
        injection ht with h1 h2
        have h2' : rest = ms ++ t := h2
        refine ⟨[], t, ?_, ?_, ?_⟩
        · simp [h1, h2']
        · simp [occursIn, List.isEmpty]
        · rw [h2'] at hro
          exact occursIn_append_right _ ms t hro
    · simp only [Bool.not_eq_true] at hp
      rw [countOcc_cons_neg m c rest hp] at h
      obtain ⟨pre', post, hs, hpre', hpost⟩ := ih h
      refine ⟨c :: pre', post, by simp [hs], ?_, hpost⟩
      simp only [occursIn, Bool.or_eq_false_iff]
      refine ⟨?_, hpre'⟩
      by_contra hcp
      simp only [Bool.not_eq_false] at hcp
      have hcr : m.isPrefixOf (c :: rest) = true := by
        rw [hs, ← List.cons_append]
        exact isPrefixOf_append_left m (c :: pre') (m ++ post) hcp
      rw [hp] at hcr
      exact absurd hcr (by simp)

theorem countOcc_two_decomp (m : List Char) (hm : m ≠ []) (hb : noBorderB m = true) :
    ∀ s : List Char, countOcc m s = 2 →
      ∃ pre mid post, s = pre ++ (m ++ (mid ++ (m ++ post))) ∧
        occursIn m pre = false ∧ occursIn m mid = false ∧ occursIn m post = false := by
  intro s
  induction s with
  | nil => intro h; simp [countOcc] at h
  | cons c rest ih =>
    intro h
    by_cases hp : m.isPrefixOf (c :: rest) = true
    · rw [countOcc_cons_pos m c rest hp] at h
      obtain ⟨a, b, hrest, ha, hbb⟩ := countOcc_one_decomp m hm rest (by omega)
      obtain ⟨t, ht⟩ := (isPrefixOf_eq_true_iff m _).mp hp
      -- the second match starts at offset `1 + a.length` of `c :: rest` and
      -- cannot overlap the match at offset `0`
      have hnoov : m.length ≤ 1 + a.length := by
        by_contra hov
        have h2p : m.isPrefixOf ((c :: rest).drop (1 + a.length)) = true := by
          have hd : (c :: rest).drop (1 + a.length) = rest.drop a.length := by
            have : 1 + a.length = a.length + 1 := by omega
            rw [this]
            rfl
          rw [hd, hrest, drop_append_le a _ a.length (le_refl _), List.drop_length]
          exact (isPrefixOf_eq_true_iff m _).mpr ⟨b, by simp⟩
        exact no_overlap m hb (c :: rest) (1 + a.length) hp h2p (by omega) (by omega)
      cases m with
      | nil => exact absurd rfl hm
      | cons mc ms =>
        rw [List.cons_append] at ht
        injection ht with h1 h2
        have h2' : rest = ms ++ t := h2
        have hms : ms.length ≤ a.length := by
          have := hnoov
          simp only [List.length_cons] at this
          omega
        have htval : t = a.drop ms.length ++ ((mc :: ms) ++ b) := by
          have hcg := congrArg (List.drop ms.length) (h2'.symm.trans hrest)
          rw [drop_len_append, drop_append_le a _ ms.length hms] at hcg
          exact hcg
        refine ⟨[], a.drop ms.length, b, ?_, ?_, ?_, ?_⟩
        · simp only [List.nil_append]
          rw [h1, h2', htval]
          rfl
        · simp [occursIn, List.isEmpty]
        · exact occursIn_drop _ ms.length a ha
        · exact hbb
    · simp only [Bool.not_eq_true] at hp
      rw [countOcc_cons_neg m c rest hp] at h
      obtain ⟨pre', mid, post, hs, hpre', hmid, hpost⟩ := ih h
      refine ⟨c :: pre', mid, post, by simp [hs], ?_, hmid, hpost⟩
      simp only [occursIn, Bool.or_eq_false_iff]
      refine ⟨?_, hpre'⟩
      by_contra hcp
      simp only [Bool.not_eq_false] at hcp
      have hcr : m.isPrefixOf (c :: rest) = true := by
        rw [hs, ← List.cons_append]
        exact isPrefixOf_append_left m (c :: pre') _ hcp
      rw [hp] at hcr
      exact absurd hcr (by simp)

/-! ## Concrete facts about the sentinel marker -/

theorem markerL_ne_nil : markerL ≠ [] := by decide

theorem markerL_noBorder : noBorderB markerL = true := by decide

/-- Claim C2: for every input string in which the sentinel marker occurs
exactly twice, `extractContent` returns exactly the substring strictly
between the first and the second occurrence, trimmed of leading and
trailing whitespace, discarding everything after the second occurrence.
The string is exhibited as `pre ++ marker ++ mid ++ marker ++ post` with
no further occurrence inside any part, and the result is `trimL mid`. -/
theorem extractContent_two_marker_occurrences (s : List Char)
    (h : countOcc markerL s = 2) :
    ∃ pre mid post, s = pre ++ (markerL ++ (mid ++ (markerL ++ post))) ∧
      occursIn markerL pre = false ∧ occursIn markerL mid = false ∧
      occursIn markerL post = false ∧
      extractContent s = trimL mid := by
  obtain ⟨pre, mid, post, hs, hpre, hmid, hpost⟩ :=
    countOcc_two_decomp markerL markerL_ne_nil markerL_noBorder s h
  refine ⟨pre, mid, post, hs, hpre, hmid, hpost, ?_⟩
  have hsplit : splitGo markerL s = [pre, mid, post] := by
    rw [hs, splitGo_append_marker markerL markerL_ne_nil markerL_noBorder pre _ hpre,
      splitGo_append_marker markerL markerL_ne_nil markerL_noBorder mid _ hmid,
      splitGo_no_occurrence markerL post hpost]
  simp [extractContent, hsplit]

/-- Claim C3: for every input string in which the sentinel marker occurs
zero times or exactly once, `extractContent` returns the input unchanged
(the whole raw body, not trimmed). -/
theorem extractContent_few_marker_occurrences (s : List Char)
    (h : countOcc markerL s ≤ 1) :
    extractContent s = s := by
  have h01 : countOcc markerL s = 0 ∨ countOcc markerL s = 1 := by omega
  rcases h01 with h0 | h1
  · have hocc := countOcc_zero markerL markerL_ne_nil s h0
    have hsplit := splitGo_no_occurrence markerL s hocc
    simp [extractContent, hsplit]
  · obtain ⟨pre, post, hs, hpre, hpost⟩ :=
      countOcc_one_decomp markerL markerL_ne_nil s h1
    have hsplit : splitGo markerL s = [pre, post] := by
      rw [hs, splitGo_append_marker markerL markerL_ne_nil markerL_noBorder pre _ hpre,
        splitGo_no_occurrence markerL post hpost]
    simp [extractContent, hsplit]

/-- Sample input containing the marker exactly twice. -/
def sampleTwo : List Char :=
  String.data ("A" ++ markerS ++ "  body text  " ++ markerS ++ "tail")

/-- Sample input containing the marker exactly once. -/
def sampleOne : List Char := String.data ("head" ++ markerS ++ "tail")

/-- Witness for claim C2 at a concrete input. -/
theorem extractContent_two_marker_occurrences_wit :
    ∃ pre mid post, sampleTwo = pre ++ (markerL ++ (mid ++ (markerL ++ post))) ∧
      occursIn markerL pre = false ∧ occursIn markerL mid = false ∧
      occursIn markerL post = false ∧
      extractContent sampleTwo = trimL mid :=
  extractContent_two_marker_occurrences sampleTwo (by decide)

/-- Witness for claim C3 at a concrete input. -/
theorem extractContent_few_marker_occurrences_wit :
    extractContent sampleOne = sampleOne :=
  extractContent_few_marker_occurrences sampleOne (by decide)

/-! ## The cache store (loader.js lines 430–461)

`localStorage` is modelled as an association list from full (namespaced)
keys to cache envelopes `{ data, timestamp }`.  The claims about the cache
are scoped to well-formed stored envelopes, so the envelope is stored
structurally instead of as a JSON string; the `try`/`catch` around
malformed entries therefore never fires in the model.  Timestamps are
epoch milliseconds as `Nat`; for `ttl : Nat` the JavaScript test
`now - timestamp > ttl` on (possibly negative) number subtraction agrees
with truncated `Nat` subtraction. -/

structure CacheEntry (α : Type) where
  data : α
  timestamp : Nat
deriving DecidableEq

def Store (α : Type) : Type := List (String × CacheEntry α)

def assocFind {β : Type} : List (String × β) → String → Option β
  | [], _ => none
  | (k', v) :: rest, k => if k' = k then some v else assocFind rest k

def storeInsert {α : Type} : Store α → String → CacheEntry α → Store α
  | [], k, v => [(k, v)]
  | (k', v') :: rest, k, v =>
    if k' = k then (k, v) :: rest else (k', v') :: storeInsert rest k v

def storeRemove {α : Type} (store : Store α) (k : String) : Store α :=
  store.filter fun p => p.1 ≠ k

/-- The constructor-settable state of a `CourseLoader` instance that the
cache and fetch layer reads (loader.js lines 16–33). -/
structure Loader where
  baseUrl : String
  courseId : String
  cacheEnabled : Bool
  cacheDuration : Nat
  cacheVersion : String
deriving DecidableEq

/-- Namespaced key `` `${this.cacheVersion}_${key}` ``. -/
def nsKey (L : Loader) (key : String) : String := L.cacheVersion ++ "_" ++ key

/-- `getFromCache` (loader.js lines 430–448).  Returns the value read (or
`none`) together with the possibly-updated backing store. -/
def getFromCache {α : Type} (L : Loader) (store : Store α) (key : String) (now : Nat) :
    Option α × Store α :=
  if L.cacheEnabled = false then (none, store)
  else
    match assocFind store (nsKey L key) with
    | none => (none, store)
    | some e =>
      if now - e.timestamp > L.cacheDuration then
        (none, storeRemove store (nsKey L key))
      else
        (some e.data, store)

/-- `saveToCache` (loader.js lines 450–461). -/
def saveToCache {α : Type} (L : Loader) (store : Store α) (key : String) (data : α)
    (now : Nat) : Store α :=
  if L.cacheEnabled = false then store
  else storeInsert store (nsKey L key) ⟨data, now⟩

theorem assocFind_storeInsert_self {α : Type} (k : String) (v : CacheEntry α) :
    ∀ store : Store α, assocFind (storeInsert store k v) k = some v := by
  intro store
  induction store with
  | nil => simp [storeInsert, assocFind]
  | cons p rest ih =>
    obtain ⟨k', v'⟩ := p
    by_cases hk : k' = k
    · simp [storeInsert, hk, assocFind]
    · simp [storeInsert, hk, assocFind, ih]

theorem assocFind_storeRemove_self {α : Type} (k : String) :
    ∀ store : Store α, assocFind (storeRemove store k) k = none := by
  intro store
  induction store with
  | nil => simp [storeRemove, assocFind]
  | cons p rest ih =>
    obtain ⟨k', v'⟩ := p
    by_cases hk : k' = k
    · simpa [storeRemove, hk] using ih
    · simpa [storeRemove, hk, assocFind] using ih

/-- Claim C1: with caching enabled, an entry written by `saveToCache` at
time `T` is returned by `getFromCache` of the same key at every time
strictly before `T + ttl` (the store is left untouched), and at every time
strictly after `T + ttl` the read returns `none` and deletes the entry
from the backing store. -/
theorem cache_ttl_expiry {α : Type} (L : Loader) (store : Store α) (key : String)
    (data : α) (T : Nat) (hEn : L.cacheEnabled = true) :
    let store' := saveToCache L store key data T
    (∀ now, now < T + L.cacheDuration →
      getFromCache L store' key now = (some data, store')) ∧
    (∀ now, T + L.cacheDuration < now →
      getFromCache L store' key now = (none, storeRemove store' (nsKey L key)) ∧
      assocFind (getFromCache L store' key now).2 (nsKey L key) = none) := by
  intro store'
  have hstore' : store' = storeInsert store (nsKey L key) ⟨data, T⟩ := by
    simp [store', saveToCache, hEn]
  have hfind : assocFind store' (nsKey L key) = some ⟨data, T⟩ := by
    rw [hstore']
    exact assocFind_storeInsert_self _ _ store
  constructor
  · intro now hnow
    have hfresh : ¬ now - T > L.cacheDuration := by omega
    simp [getFromCache, hEn, hfind, hfresh]
  · intro now hnow
    have hstale : now - T > L.cacheDuration := by omega
    constructor
    · simp [getFromCache, hEn, hfind, hstale]
    · simp [getFromCache, hEn, hfind, hstale, assocFind_storeRemove_self]

/-- A loader instance with caching enabled and the defaults from the
constructor (`cacheDuration` 3 600 000 ms, `cacheVersion` "v1.0.0"). -/
def loaderOn : Loader := ⟨"", "situation_1", true, 3600000, "v1.0.0"⟩

/-- A loader instance with caching disabled. -/
def loaderOff : Loader := ⟨"", "situation_1", false, 3600000, "v1.0.0"⟩

/-- Witness for claim C1 at a concrete store, key and pair of read times. -/
theorem cache_ttl_expiry_wit :
    getFromCache loaderOn (saveToCache loaderOn ([] : Store String) "k" "v" 0) "k" 10 =
      (some "v", saveToCache loaderOn ([] : Store String) "k" "v" 0) ∧
    (getFromCache loaderOn (saveToCache loaderOn ([] : Store String) "k" "v" 0) "k"
        7200000).1 = none :=
  ⟨(cache_ttl_expiry loaderOn [] "k" "v" 0 rfl).1 10 (by decide),
   by rw [((cache_ttl_expiry loaderOn [] "k" "v" 0 rfl).2 7200000 (by decide)).1]⟩

/-! ## Course data model and the network oracle -/

/-- One chapter of the manifest (`config.json`).  `exercise` is an
optional filename; `none` models an absent property.  JavaScript also
treats an empty (falsy) string as "no exercise", which the fetch model
checks explicitly. -/
structure Chapter where
  id : String
  title : String
  type : String
  duration : String
  exercise : Option String
deriving DecidableEq

structure CourseConfig where
  courseName : String
  description : String
  version : String
  institution : String
  chapters : List Chapter
deriving DecidableEq

/-- Outcome of one `fetch`: either a settled response with an HTTP status
and a body, or a rejected promise (network error) carrying the error
message. -/
inductive FetchOutcome where
  | response (status : Nat) (body : String)
  | networkError (msg : String)

/-- `response.ok` is true exactly for statuses 200–299. -/
def responseOk (status : Nat) : Bool := decide (200 ≤ status ∧ status < 300)

/-! ## `loadConfig` (loader.js lines 55–80) and `init` (lines 41–50)

The fetch of `config.json` is modelled by the oracle `net`; `response.json()`
is modelled by the oracle `parse` (`none` = parse failure, i.e. the promise
rejects).  The result records the thrown-or-returned outcome, the updated
backing store, and the list of URLs actually requested, so that "no network
call is made" is statable. -/

def configCacheKey (L : Loader) : String := "course_config_" ++ L.courseId

def configUrl (L : Loader) (now : Nat) : String :=
  L.baseUrl ++ "/courses/" ++ L.courseId ++ "/config.json?t=" ++ toString now

structure LoadConfigResult where
  outcome : Except String CourseConfig
  store : Store CourseConfig
  requests : List String

def loadConfig (L : Loader) (store : Store CourseConfig)
    (net : String → FetchOutcome) (parse : String → Option CourseConfig)
    (now : Nat) : LoadConfigResult :=
  match getFromCache L store (configCacheKey L) now with
  | (some cached, st) => ⟨.ok cached, st, []⟩
  | (none, st) =>
    let url := configUrl L now
    match net url with
    | .networkError msg => ⟨.error msg, st, [url]⟩
    | .response status body =>
      if responseOk status = false then ⟨.error ("HTTP " ++ toString status), st, [url]⟩
      else
        match parse body with
        | none => ⟨.error "JSON parse error", st, [url]⟩
        | some config => ⟨.ok config, saveToCache L st (configCacheKey L) config now, [url]⟩

/-- Result of `init`: either the UI was rendered from a loaded config, or
the top-level error panel was shown. -/
inductive InitOutcome where
  | rendered (config : CourseConfig)
  | errorShown (msg : String)
deriving DecidableEq

def init (L : Loader) (store : Store CourseConfig) (net : String → FetchOutcome)
    (parse : String → Option CourseConfig) (now : Nat) : InitOutcome :=
  match (loadConfig L store net parse now).outcome with
  | .ok config => .rendered config
  | .error _ => .errorShown "Fehler beim Laden der Kurskonfiguration"

/-- Claim C5: whenever the cache lookup for `course_config_{courseId}`
hits, `loadConfig` adopts the cached value as the config and returns with
no network request issued (the request list is empty) and the store as the
lookup left it. -/
theorem loadConfig_cache_hit_no_fetch (L : Loader) (store : Store CourseConfig)
    (net : String → FetchOutcome) (parse : String → Option CourseConfig)
    (now : Nat) (c : CourseConfig)
    (h : (getFromCache L store (configCacheKey L) now).1 = some c) :
    loadConfig L store net parse now =
      ⟨.ok c, (getFromCache L store (configCacheKey L) now).2, []⟩ := by
  rcases hget : getFromCache L store (configCacheKey L) now with ⟨r, st⟩
  rw [hget] at h
  simp only at h
  subst h
  simp [loadConfig, hget]

/-- A concrete course config used by the witnesses. -/
def cfgSample : CourseConfig :=
  ⟨"BauMax", "Beschreibung", "1.0.0", "Schule",
   [⟨"1.0", "BauMax App", "intro", "10 min", none⟩]⟩

/-- A store that holds a fresh cached copy of `cfgSample` under the
namespaced config key. -/
def storeCfg : Store CourseConfig :=
  [("v1.0.0_course_config_situation_1", ⟨cfgSample, 0⟩)]

/-- Network oracle that always fails. -/
def netFail : String → FetchOutcome := fun _ => .networkError "offline"

/-- Network oracle that always answers HTTP 502 with an empty body. -/
def netBadGateway : String → FetchOutcome := fun _ => .response 502 ""

/-- Parse oracle that always fails. -/
def parseFail : String → Option CourseConfig := fun _ => none

/-- Witness for claim C5: a cache hit returns the cached config with an
empty request list, even though the supplied network oracle would fail. -/
theorem loadConfig_cache_hit_no_fetch_wit :
    loadConfig loaderOn storeCfg netFail parseFail 10 =
      ⟨.ok cfgSample, (getFromCache loaderOn storeCfg (configCacheKey loaderOn) 10).2, []⟩ :=
  loadConfig_cache_hit_no_fetch loaderOn storeCfg netFail parseFail 10 cfgSample (by decide)

/-- Claim C7: when the `config.json` response has a non-2xx status (and the
cache missed), `loadConfig` fails with an error that carries the HTTP
status, the config is not adopted and nothing is cached, and `init` treats
the failure as fatal by showing the top-level error panel. -/
theorem loadConfig_http_error_fatal (L : Loader) (store : Store CourseConfig)
    (net : String → FetchOutcome) (parse : String → Option CourseConfig)
    (now status : Nat) (body : String)
    (hmiss : (getFromCache L store (configCacheKey L) now).1 = none)
    (hresp : net (configUrl L now) = .response status body)
    (hbad : responseOk status = false) :
    loadConfig L store net parse now =
      ⟨.error ("HTTP " ++ toString status),
        (getFromCache L store (configCacheKey L) now).2, [configUrl L now]⟩ ∧
    init L store net parse now = .errorShown "Fehler beim Laden der Kurskonfiguration" := by
  rcases hget : getFromCache L store (configCacheKey L) now with ⟨r, st⟩
  rw [hget] at hmiss
  simp only at hmiss
  subst hmiss
  have hload : loadConfig L store net parse now =
      ⟨.error ("HTTP " ++ toString status), st, [configUrl L now]⟩ := by
    simp [loadConfig, hget, hresp, hbad]
  refine ⟨by rw [hload], ?_⟩
  simp [init, hload]

/-- Witness for claim C7 at a concrete loader, store and network. -/
theorem loadConfig_http_error_fatal_wit :
    loadConfig loaderOff ([] : Store CourseConfig) netBadGateway parseFail 0 =
      ⟨.error ("HTTP " ++ toString 502),
        (getFromCache loaderOff ([] : Store CourseConfig) (configCacheKey loaderOff) 0).2,
        [configUrl loaderOff 0]⟩ ∧
    init loaderOff ([] : Store CourseConfig) netBadGateway parseFail 0 =
      .errorShown "Fehler beim Laden der Kurskonfiguration" :=
  loadConfig_http_error_fatal loaderOff [] netBadGateway parseFail 0 502 "" rfl rfl rfl

/-! ## `fetchChapterContent` (loader.js lines 248–296)

The static id → filename table, the `try` block body (which can throw on
an unmapped id, a non-2xx response or a network failure) and the `catch`
that converts the thrown error into an inline HTML error fragment. -/

def fileMapping : List (String × String) :=
  [("1.0", "seite1.0_baumax_app.html"),
   ("1.1", "seite1.1_fliesenrechner.html"),
   ("1.2", "seite1.2_digitaler_helfer.html"),
   ("1.3", "seite1.3_baumax_premium.html"),
   ("1.4", "seite1.4_vollstaendiges_kundenprofil.html"),
   ("1.5", "seite1.5_checkliste_warenversand.html"),
   ("1.6", "seite1.6_mehrwertsteuer.html"),
   ("1.7", "seite1.7_speicheroptimierung.html"),
   ("1.8", "seite1.8_verpackungs_rechner.html"),
   ("1.9", "seite1.9_zugangs_check.html")]

def chapterCacheKey (L : Loader) (ch : Chapter) : String :=
  "chapter_" ++ L.courseId ++ "_" ++ ch.id

def chapterUrl (L : Loader) (fileName : String) (now : Nat) : String :=
  L.baseUrl ++ "/github_content/" ++ fileName ++ "?t=" ++ toString now

/-- The inline error block returned on a failed chapter fetch. -/
def errorFragment (msg : String) : String :=
  "<div class=\"error\"><strong>Fehler:</strong> Kapitel konnte nicht geladen werden (" ++
    msg ++ ")</div>"

/-- The `try` block of `fetchChapterContent`: every `throw` becomes
`Except.error` carrying the `error.message` the code would produce. -/
def fetchChapterBody (L : Loader) (st : Store String) (ch : Chapter)
    (net : String → FetchOutcome) (now : Nat) :
    Except String (String × Store String) :=
  match assocFind fileMapping ch.id with
  | none => .error ("Keine Datei für Kapitel " ++ ch.id ++ " definiert")
  | some fileName =>
    match net (chapterUrl L fileName now) with
    | .networkError msg => .error msg
    | .response status body =>
      if responseOk status = false then .error ("HTTP " ++ toString status)
      else
        let content := extractContentS body
        .ok (content, saveToCache L st (chapterCacheKey L ch) content now)

def fetchChapterContent (L : Loader) (store : Store String) (ch : Chapter)
    (net : String → FetchOutcome) (now : Nat) : String × Store String :=
  match getFromCache L store (chapterCacheKey L ch) now with
  | (some cached, st) => (cached, st)
  | (none, st) =>
    match fetchChapterBody L st ch net now with
    | .ok r => r
    | .error msg => (errorFragment msg, st)

/-- Claim C4: `fetchChapterContent` never propagates a failure to its
caller.  On a cache miss, every error thrown inside the `try` block —
in particular an unmapped chapter id, a network error, and a non-2xx
response — is caught and converted into the inline HTML error fragment,
returned as an ordinary string with the store untouched. -/
theorem fetchChapter_failure_inline_fragment (L : Loader) (store : Store String)
    (ch : Chapter) (net : String → FetchOutcome) (now : Nat)
    (hmiss : (getFromCache L store (chapterCacheKey L ch) now).1 = none) :
    (∀ e, fetchChapterBody L (getFromCache L store (chapterCacheKey L ch) now).2 ch net now
        = .error e →
      fetchChapterContent L store ch net now =
        (errorFragment e, (getFromCache L store (chapterCacheKey L ch) now).2)) ∧
    (assocFind fileMapping ch.id = none →
      fetchChapterContent L store ch net now =
        (errorFragment ("Keine Datei für Kapitel " ++ ch.id ++ " definiert"),
          (getFromCache L store (chapterCacheKey L ch) now).2)) ∧
    (∀ fn msg, assocFind fileMapping ch.id = some fn →
      net (chapterUrl L fn now) = .networkError msg →
      fetchChapterContent L store ch net now =
        (errorFragment msg, (getFromCache L store (chapterCacheKey L ch) now).2)) ∧
    (∀ fn status body, assocFind fileMapping ch.id = some fn →
      net (chapterUrl L fn now) = .response status body → responseOk status = false →
      fetchChapterContent L store ch net now =
        (errorFragment ("HTTP " ++ toString status),
          (getFromCache L store (chapterCacheKey L ch) now).2)) := by
  rcases hget : getFromCache L store (chapterCacheKey L ch) now with ⟨r, st⟩
  rw [hget] at hmiss
  simp only at hmiss
  subst hmiss
  have hcatch : ∀ e, fetchChapterBody L st ch net now = .error e →
      fetchChapterContent L store ch net now = (errorFragment e, st) := by
    intro e he
    simp [fetchChapterContent, hget, he]
  refine ⟨hcatch, ?_, ?_, ?_⟩
  · intro hnofile
    exact hcatch _ (by simp [fetchChapterBody, hnofile])
  · intro fn msg hfn hnet
    exact hcatch _ (by simp [fetchChapterBody, hfn, hnet])
  · intro fn status body hfn hnet hbad
    exact hcatch _ (by simp [fetchChapterBody, hfn, hnet, hbad])

/-- A chapter whose id has no entry in the filename table. -/
def chUnmapped : Chapter := ⟨"9.9", "Geist", "lesson", "5 min", none⟩

/-- Witness for claim C4: an unmapped chapter id yields the inline error
fragment instead of an exception. -/
theorem fetchChapter_failure_inline_fragment_wit :
    fetchChapterContent loaderOff ([] : Store String) chUnmapped netFail 0 =
      (errorFragment ("Keine Datei für Kapitel " ++ chUnmapped.id ++ " definiert"),
        (getFromCache loaderOff ([] : Store String)
          (chapterCacheKey loaderOff chUnmapped) 0).2) :=
  (fetchChapter_failure_inline_fragment loaderOff [] chUnmapped netFail 0 rfl).2.1 (by decide)

/-! ## `fetchExerciseContent` (loader.js lines 301–327)

`if (!chapter.exercise) return ''` guards on a falsy exercise reference
(absent or empty string).  Inside the `try`, a non-ok response returns the
empty string (no throw), and the `catch` also returns the empty string.
The third component of the result lists the URLs actually fetched. -/

def exerciseCacheKey (L : Loader) (ch : Chapter) : String :=
  "exercise_" ++ L.courseId ++ "_" ++ ch.id

def exerciseUrl (L : Loader) (ch : Chapter) (now : Nat) : String :=
  L.baseUrl ++ "/github_content/" ++ ch.exercise.getD "" ++ "?t=" ++ toString now

def fetchExerciseContent (L : Loader) (store : Store String) (ch : Chapter)
    (net : String → FetchOutcome) (now : Nat) :
    String × Store String × List String :=
  if ch.exercise.getD "" = "" then ("", store, [])
  else
    match getFromCache L store (exerciseCacheKey L ch) now with
    | (some cached, st) => (cached, st, [])
    | (none, st) =>
      match net (exerciseUrl L ch now) with
      | .networkError _ => ("", st, [exerciseUrl L ch now])
      | .response status body =>
        if responseOk status then
          let content := extractContentS body
          (content, saveToCache L st (exerciseCacheKey L ch) content now,
            [exerciseUrl L ch now])
        else ("", st, [exerciseUrl L ch now])

/-- Claim C8: the exercise fetch is only attempted when the chapter
declares a (truthy) exercise reference; on every failure — no exercise
declared, network error, or non-2xx response — it returns the empty
string without throwing, and a successful fetch returns the extracted
fragment. -/
theorem fetchExercise_optional_silent (L : Loader) (store : Store String)
    (ch : Chapter) (net : String → FetchOutcome) (now : Nat) :
    (ch.exercise.getD "" = "" →
      fetchExerciseContent L store ch net now = ("", store, [])) ∧
    (ch.exercise.getD "" ≠ "" →
      (getFromCache L store (exerciseCacheKey L ch) now).1 = none →
      (∀ msg, net (exerciseUrl L ch now) = .networkError msg →
        fetchExerciseContent L store ch net now =
          ("", (getFromCache L store (exerciseCacheKey L ch) now).2,
            [exerciseUrl L ch now])) ∧
      (∀ status body, net (exerciseUrl L ch now) = .response status body →
        responseOk status = false →
        fetchExerciseContent L store ch net now =
          ("", (getFromCache L store (exerciseCacheKey L ch) now).2,
            [exerciseUrl L ch now])) ∧
      (∀ status body, net (exerciseUrl L ch now) = .response status body →
        responseOk status = true →
        fetchExerciseContent L store ch net now =
          (extractContentS body,
            saveToCache L (getFromCache L store (exerciseCacheKey L ch) now).2
              (exerciseCacheKey L ch) (extractContentS body) now,
            [exerciseUrl L ch now]))) := by
  constructor
  · intro hno
    simp [fetchExerciseContent, hno]
  · intro hyes hmiss
    rcases hget : getFromCache L store (exerciseCacheKey L ch) now with ⟨r, st⟩
    rw [hget] at hmiss
    simp only at hmiss
    subst hmiss
    refine ⟨?_, ?_, ?_⟩
    · intro msg hnet
      simp [fetchExerciseContent, hyes, hget, hnet]
    · intro status body hnet hbad
      simp [fetchExerciseContent, hyes, hget, hnet, hbad]
    · intro status body hnet hok
      simp [fetchExerciseContent, hyes, hget, hnet, hok]

/-- Witness for claim C8: a chapter without an exercise reference returns
the empty string with no request issued. -/
theorem fetchExercise_optional_silent_wit :
    fetchExerciseContent loaderOff ([] : Store String) chUnmapped netFail 0 =
      ("", ([] : Store String), []) :=
  (fetchExercise_optional_silent loaderOff [] chUnmapped netFail 0).1 rfl

/-- Claim C10: no failure path of `fetchChapterContent` or
`fetchExerciseContent` writes to the cache: in each failing case the
returned store is exactly the store as the initial cache lookup left it
(the inline error fragment and the empty-string fallback are returned to
the caller but never stored). -/
theorem failure_paths_never_cached (L : Loader) (store : Store String)
    (ch : Chapter) (net : String → FetchOutcome) (now : Nat) :
    ((getFromCache L store (chapterCacheKey L ch) now).1 = none →
      ∀ e, fetchChapterBody L (getFromCache L store (chapterCacheKey L ch) now).2 ch net now
          = .error e →
        (fetchChapterContent L store ch net now).2 =
          (getFromCache L store (chapterCacheKey L ch) now).2) ∧
    (ch.exercise.getD "" = "" →
      (fetchExerciseContent L store ch net now).2.1 = store) ∧
    ((getFromCache L store (exerciseCacheKey L ch) now).1 = none →
      ch.exercise.getD "" ≠ "" →
      (∀ msg, net (exerciseUrl L ch now) = .networkError msg →
        (fetchExerciseContent L store ch net now).2.1 =
          (getFromCache L store (exerciseCacheKey L ch) now).2) ∧
      (∀ status body, net (exerciseUrl L ch now) = .response status body →
        responseOk status = false →
        (fetchExerciseContent L store ch net now).2.1 =
          (getFromCache L store (exerciseCacheKey L ch) now).2)) := by
  refine ⟨?_, ?_, ?_⟩
  · intro hmiss e he
    rcases hget : getFromCache L store (chapterCacheKey L ch) now with ⟨r, st⟩
    rw [hget] at hmiss he
    simp only at hmiss he
    subst hmiss
    simp [fetchChapterContent, hget, he]
  · intro hno
    simp [fetchExerciseContent, hno]
  · intro hmiss hyes
    rcases hget : getFromCache L store (exerciseCacheKey L ch) now with ⟨r, st⟩
    rw [hget] at hmiss
    simp only at hmiss
    subst hmiss
    constructor
    · intro msg hnet
      simp [fetchExerciseContent, hyes, hget, hnet]
    · intro status body hnet hbad
      simp [fetchExerciseContent, hyes, hget, hnet, hbad]

/-- Witness for claim C10: on an unmapped chapter id the resulting store is
unchanged (nothing was cached). -/
theorem failure_paths_never_cached_wit :
    (fetchChapterContent loaderOff ([] : Store String) chUnmapped netFail 0).2 =
      (getFromCache loaderOff ([] : Store String)
        (chapterCacheKey loaderOff chUnmapped) 0).2 :=
  (failure_paths_never_cached loaderOff [] chUnmapped netFail 0).1 rfl
    ("Keine Datei für Kapitel " ++ chUnmapped.id ++ " definiert") rfl

/-! ## `getTotalDuration` (loader.js lines 187–194)

`ch.duration.match(/(\d+)/)` finds the first maximal run of decimal digits
anywhere in the string; `parseInt` on that run is its numeric value.
`firstNumber` performs the same scan. -/

def digitsVal (l : List Char) : Nat :=
  l.foldl (fun a c => a * 10 + (c.toNat - 48)) 0

def firstNumber : List Char → Option Nat
  | [] => none
  | c :: rest =>
    if c.isDigit then some (digitsVal (c :: rest.takeWhile Char.isDigit))
    else firstNumber rest

def getTotalDuration (config : CourseConfig) : String :=
  let total := config.chapters.foldl
    (fun total ch =>
      match firstNumber ch.duration.data with
      | some n => total + n
      | none => total) 0
  toString total ++ " min"

theorem foldl_add_firstNumber (l : List Chapter) :
    ∀ a : Nat,
      l.foldl (fun total ch =>
        match firstNumber ch.duration.data with
        | some n => total + n
        | none => total) a
      = a + (l.map fun ch => (firstNumber ch.duration.data).getD 0).sum := by
  induction l with
  | nil => intro a; simp
  | cons ch rest ih =>
    intro a
    simp only [List.foldl_cons, List.map_cons, List.sum_cons]
    rw [ih]
    have hstep : (match firstNumber ch.duration.data with
        | some n => a + n
        | none => a) = a + (firstNumber ch.duration.data).getD 0 := by
      cases firstNumber ch.duration.data <;> simp
    rw [hstep]
    omega

/-- Example from the spec: durations "10 min", "5 min", "abc". -/
def cfgDurations : CourseConfig :=
  ⟨"c", "d", "v", "i",
   [⟨"1.0", "a", "intro", "10 min", none⟩,
    ⟨"1.1", "b", "lesson", "5 min", none⟩,
    ⟨"1.2", "c", "lesson", "abc", none⟩]⟩

/-- Claim C6: `getTotalDuration` returns `"{N} min"` where `N` is the sum
over all chapters of the first integer in the chapter's duration string,
with unparsable durations contributing zero; in particular the durations
"10 min", "5 min", "abc" yield "15 min". -/
theorem getTotalDuration_leading_sum (config : CourseConfig) :
    getTotalDuration config =
      toString ((config.chapters.map fun ch => (firstNumber ch.duration.data).getD 0).sum)
        ++ " min" ∧
    getTotalDuration cfgDurations = "15 min" := by
  constructor
  · simp only [getTotalDuration]
    rw [foldl_add_firstNumber config.chapters 0]
    simp
  · decide

/-! ## `renderTableOfContents` (loader.js lines 131–182)

The method builds one HTML string: a header literal, then one `<li>` entry
appended per chapter in manifest order, then a footer literal containing
the total-duration summary and the reload button. -/

def tocHeaderHtml : String :=
  "\n      <nav class=\"inhaltsverzeichnis\" style=\"position: sticky; top: 0;\">\n        <h4 style=\"margin: 0 0 1rem 0; color: #005691; border-bottom: 2px solid #005691; padding-bottom: 0.5rem;\">\n          📚 Inhaltsverzeichnis\n        </h4>\n        <ul style=\"list-style: none; padding: 0; margin: 0;\">\n    "

def tocEntryHtml (chapter : Chapter) : String :=
  let icon := if chapter.type = "intro" then "🎬" else "📖"
  "\n        <li style=\"margin-bottom: 0.5rem;\">\n          <a href=\"#\" data-chapter-id=\"" ++ chapter.id ++
  "\" class=\"toc-link\" style=\"\n            display: block;\n            padding: 0.5rem;\n            border-radius: 4px;\n            transition: all 0.3s ease;\n            cursor: pointer;\n          \" onmouseover=\"this.style.backgroundColor=\x27#e3f2fd\x27; this.style.paddingLeft=\x271rem\x27;\" \n             onmouseout=\"this.style.backgroundColor=\x27transparent\x27; this.style.paddingLeft=\x270.5rem\x27;\">\n            " ++
  icon ++ " " ++ chapter.id ++ ": " ++ chapter.title ++
  "\n            <small style=\"display: block; color: #999; font-size: 0.8em; margin-top: 0.25rem;\">\n              ⏱️ " ++
  chapter.duration ++
  "\n            </small>\n          </a>\n        </li>\n      "

def tocFooterHtml (config : CourseConfig) : String :=
  "\n        </ul>\n        <div style=\"margin-top: 1.5rem; padding-top: 1rem; border-top: 1px solid #ddd; font-size: 0.85em; color: #666;\">\n          <p style=\"margin: 0;\"><strong>Summe:</strong> " ++
  getTotalDuration config ++
  "</p>\n          <p style=\"margin: 0.5rem 0 0 0;\">\n            <button onclick=\"location.reload()\" style=\"\n              background: #005691;\n              color: white;\n              border: none;\n              padding: 0.5rem 1rem;\n              border-radius: 4px;\n              cursor: pointer;\n              font-size: 0.9em;\n              width: 100%;\n            \">🔄 Cache löschen</button>\n          </p>\n        </div>\n      </nav>\n    "

def renderTableOfContents (config : CourseConfig) : String :=
  let html := tocHeaderHtml
  let html := config.chapters.foldl (fun html chapter => html ++ tocEntryHtml chapter) html
  html ++ tocFooterHtml config

theorem str_foldl_join : ∀ (l : List String) (a : String),
    l.foldl (fun r s => r ++ s) a = a ++ String.join l := by
  intro l
  induction l with
  | nil => intro a; simp [String.join, String.append_empty]
  | cons s rest ih =>
    intro a
    have hj : String.join (s :: rest) = s ++ String.join rest := by
      show List.foldl (fun r t => r ++ t) ("" ++ s) rest = _
      rw [ih ("" ++ s), String.empty_append]
    rw [hj]
    show List.foldl (fun r t => r ++ t) (a ++ s) rest = _
    rw [ih (a ++ s), String.append_assoc]

theorem foldl_entry_join (l : List Chapter) :
    ∀ a : String,
      l.foldl (fun html chapter => html ++ tocEntryHtml chapter) a =
        a ++ String.join (l.map tocEntryHtml) := by
  induction l with
  | nil => intro a; simp [String.join, String.append_empty]
  | cons ch rest ih =>
    intro a
    simp only [List.foldl_cons, List.map_cons]
    rw [ih (a ++ tocEntryHtml ch)]
    have hj : String.join (tocEntryHtml ch :: rest.map tocEntryHtml) =
        tocEntryHtml ch ++ String.join (rest.map tocEntryHtml) := by
      show List.foldl (fun r t => r ++ t) ("" ++ tocEntryHtml ch) _ = _
      rw [str_foldl_join _ ("" ++ tocEntryHtml ch), String.empty_append]
    rw [hj, String.append_assoc]

/-! ## First index of a substring, for stating entry order -/

def idxOfSubAux (needle : List Char) : Nat → List Char → Option Nat
  | _, [] => none
  | k, c :: rest =>
    if needle.isPrefixOf (c :: rest) then some k
    else idxOfSubAux needle (k + 1) rest

/-- Index of the first occurrence of `needle` in `hay` (like
`String.prototype.indexOf`). -/
def idxOfSub (needle hay : List Char) : Option Nat := idxOfSubAux needle 0 hay

/-- `subBefore n1 n2 hay` holds when both `n1` and `n2` occur in `hay` and
the first occurrence of `n1` starts strictly before that of `n2`. -/
def subBefore (n1 n2 hay : List Char) : Bool :=
  match idxOfSub n1 hay, idxOfSub n2 hay with
  | some i, some j => decide (i < j)
  | _, _ => false

/-- Two-chapter manifest from the spec example. -/
def cfgTwo : CourseConfig :=
  ⟨"c", "d", "v", "i",
   [⟨"1.0", "A", "intro", "10 min", none⟩,
    ⟨"1.1", "B", "lesson", "5 min", none⟩]⟩

set_option maxRecDepth 100000 in
/-- Claim C9: the table of contents is the header, followed by exactly one
entry per chapter in manifest order, followed by the footer; in particular
for the chapters `[{id:"1.0"},{id:"1.1"}]` the entry anchored at
`data-chapter-id="1.0"` precedes the one anchored at
`data-chapter-id="1.1"` in the rendered HTML. -/
theorem toc_one_entry_per_chapter_in_order (config : CourseConfig) :
    renderTableOfContents config =
      tocHeaderHtml ++ (String.join (config.chapters.map tocEntryHtml) ++
        tocFooterHtml config) ∧
    subBefore (String.data "data-chapter-id=\"1.0\"")
      (String.data "data-chapter-id=\"1.1\"")
      (renderTableOfContents cfgTwo).data = true := by
  constructor
  · simp only [renderTableOfContents]
    rw [foldl_entry_join config.chapters tocHeaderHtml, String.append_assoc]
  · decide

end BauMax
